import Mathlib

set_option maxHeartbeats 1000000

/-!
Shallow embedding of the motif-clustering core of `tobias/motifs/motif_clust.py`
(Score Matrix Builder, Dissimilarity Classifier, cluster grouping, Consensus
Builder).  Python floats are modelled as `ℚ`, Python dicts as last-write-wins
lookups over an explicit write list, and the external gimmemotifs primitives
(`Motif.average_motifs`, `MotifComparer.get_all_scores`) as parameters bundled
in a `ConsensusEnv`.
-/

/-- A pairwise comparison score `[similarity, pos, orientation]` as stored in
the dictionaries returned by `MotifComparer.get_all_scores`. -/
structure Score3 where
  sim : ℚ
  pos : ℤ
  orient : ℤ
deriving DecidableEq

/-- A gimmemotifs motif: an identifier plus a count/frequency matrix. -/
structure Motif where
  id : String
  counts : List (List ℚ)
deriving DecidableEq

/-- Model of `s.replace('\t', ' ')` — with a single-character pattern this is
exactly per-character substitution.  Identifiers are normalized this way before being
used as matrix labels (`motif_clust.py`, lines 191-192). -/
def normalizeId (s : String) : String :=
  ⟨s.data.map (fun c => if c = '\t' then ' ' else c)⟩

/-- Model of `round(x, 3)`: rounding to three decimal places, as applied to each matrix
entry in `generate_similarity_matrix` (line 198). -/
def round3 (q : ℚ) : ℚ := (round (q * 1000) : ℤ) / 1000

/-- The `.replace(-0, 0)` applied to the final dataframe (line 205).  Over `ℚ`
there is no negative zero, so this is the identity map; it is kept to mirror
the source. -/
def negZeroFix (q : ℚ) : ℚ := if q = -0 then 0 else q

/-- The raw pairwise score dictionary (`score_dict`): its first-level key list,
the second-level key list (keys of the first value, line 189), and the score
lookup.  Lookups are total here; the claims assume key sets that make every
Python lookup succeed. -/
structure ScoreMap where
  keys1 : List String
  keys2 : List String
  score : String → String → Score3

/-- The value written for the pair `(m1, m2)` in the symmetrization loop:
`round(1 - np.mean([score_dict[m1][m2][0], score_dict[m2][m1][0]]), 3)`
(line 198). -/
def pairScore (sd : ScoreMap) (m1 m2 : String) : ℚ :=
  round3 (1 - ((sd.score m1 m2).sim + (sd.score m2 m1).sim) / 2)

/-- The ordered list of dictionary writes performed by the double loop in
`generate_similarity_matrix` (lines 196-201): for each `m1` in `keys1` and
`m2` in `keys2`, the score is written at `(label m1, label m2)` and at
`(label m2, label m1)`. -/
def writesList (sd : ScoreMap) : List (String × String × ℚ) :=
  sd.keys1.flatMap fun m1 =>
    sd.keys2.flatMap fun m2 =>
      [(normalizeId m1, normalizeId m2, pairScore sd m1 m2),
       (normalizeId m2, normalizeId m1, pairScore sd m1 m2)]

/-- The entry of the final dataframe at column label `c`, row label `r`:
the last write to that cell wins (Python dict assignment semantics), and the
dataframe-level `.replace(-0, 0)` is applied (lines 203-205).  `none` models a
cell that was never written. -/
def matrixEntry (sd : ScoreMap) (c r : String) : Option ℚ :=
  ((writesList sd).reverse.find? (fun w => w.1 == c && w.2.1 == r)).map
    (fun w => negZeroFix w.2.2)

/-- The distance matrix as consumed by `get_dissimilar_motifs`: positional
column labels, a row count and a positional entry table (pandas `iloc`). -/
structure DistMatrix where
  cols : List String
  nrows : Nat
  entry : Nat → Nat → ℚ

/-- Embedding of `get_dissimilar_motifs` (lines 236-258): for
`col in range(columns - 1)`,
keep `matrix.columns[col]` when every entry of the column strictly exceeds the
threshold. -/
def get_dissimilar_motifs (matrix : DistMatrix) (threshold : ℚ) : List String :=
  ((List.range (matrix.cols.length - 1)).filter (fun col =>
      (List.range matrix.nrows).all (fun r => decide (threshold < matrix.entry r col)))).map
    (fun col => matrix.cols.getD col "")

/-- The key `"Cluster_" + str(label)` (line 367). -/
def clusterKey (n : Nat) : String := "Cluster_" ++ toString n

/-- One iteration of the loop in `get_cluster`:
`cluster["Cluster_" + str(labels[i])].append(label_names[i])`. -/
def clusterStep (acc : String → List String) (p : Nat × String) :
    String → List String :=
  fun k => if clusterKey p.1 = k then acc k ++ [p.2] else acc k

/-- Embedding of `get_cluster` (lines 349-368): fold over the `(label, name)` pairs,
appending each name to the group of its cluster key (`defaultdict(list)`). -/
def get_cluster (pairs : List (Nat × String)) : String → List String :=
  pairs.foldl clusterStep (fun _ => [])

/-- Enumeration of `itertools.combinations(l, 2)` in order. -/
def combinations2 {α : Type} : List α → List (α × α)
  | [] => []
  | x :: xs => xs.map (fun y => (x, y)) ++ combinations2 xs

/-- The similarity component used by the selection loop of
`generate_consensus_motif`: `similarity_dict[motif_1.id][motif_2.id][0]`. -/
def simOf (sd : String → String → Score3) (p : Motif × Motif) : ℚ :=
  (sd p.1.id p.2.id).sim

/-- The selection loop of `generate_consensus_motif` (lines 494-500):
`max_score` starts at 0 and a pair replaces the running best whenever its
score is greater than or equal to `max_score`. -/
def selectPair (sd : String → String → Score3) :
    List (Motif × Motif) → ℚ → Option (Motif × Motif) → ℚ × Option (Motif × Motif)
  | [], mx, best => (mx, best)
  | p :: ps, mx, best =>
    if mx ≤ simOf sd p then
      selectPair sd ps (simOf sd p) (some p)
    else
      selectPair sd ps mx best

/-- The pair `(merge_1, merge_2)` left selected after the loop; `none` models
the `UnboundLocalError` raised when no pair ever satisfied the condition. -/
def selectMergePair (motifs : List Motif) (sd : String → String → Score3) :
    Option (Motif × Motif) :=
  (selectPair sd (combinations2 motifs) 0 none).2

/-- The value of the Python variable `score` after the selection loop: the
score of the LAST pair in enumeration order (it is re-assigned on every
iteration, not saved with the winning pair).  This stale value supplies
`pos=score[1], orientation=score[2]` at line 503. -/
def lastPairScore (motifs : List Motif) (sd : String → String → Score3) : Score3 :=
  match (combinations2 motifs).getLast? with
  | some p => sd p.1.id p.2.id
  | none => ⟨0, 0, 0⟩

/-- External primitives consumed by the Consensus Builder:
`merge_1.average_motifs(merge_2, pos, orientation)` and
`MotifComparer.get_all_scores(motifs, motifs, "total", "pcc", "mean")`. -/
structure ConsensusEnv where
  avg : Motif → Motif → ℤ → ℤ → Motif
  rescore : List Motif → String → String → Score3

/-- The averaged motif built at lines 502-504:
`merge_1.average_motifs(merge_2, pos=score[1], orientation=score[2])` — note
the alignment parameters come from the stale `lastPairScore`, not from the
winning pair — renamed to `merge_1.id + "_" + merge_2.id`. -/
def newAvgMotif (env : ConsensusEnv) (motifs : List Motif)
    (sd : String → String → Score3) (m1 m2 : Motif) : Motif :=
  { env.avg m1 m2 (lastPairScore motifs sd).pos (lastPairScore motifs sd).orient with
    id := m1.id ++ "_" ++ m2.id }

/-- One level of `generate_consensus_motif` past the base case
(lines 493-511): select the merge pair, build the renamed average motif,
append it, remove the two parents (first occurrence, as `list.remove`), and
re-score the new working list. -/
def consensusStep (env : ConsensusEnv) (motifs : List Motif)
    (sd : String → String → Score3) :
    Option (List Motif × (String → String → Score3)) :=
  match selectMergePair motifs sd with
  | none => none
  | some (m1, m2) =>
    some (((motifs ++ [newAvgMotif env motifs sd m1 m2]).erase m1).erase m2,
          env.rescore (((motifs ++ [newAvgMotif env motifs sd m1 m2]).erase m1).erase m2))

/-- Decomposition of a pair drawn from `itertools.combinations(l, 2)`: the
first component occurs strictly before the second. -/
lemma combinations2_split {α : Type} {a b : α} :
    ∀ {l : List α}, (a, b) ∈ combinations2 l →
      ∃ u v w, l = u ++ a :: (v ++ b :: w) := by
  intro l h
  induction l with
  | nil => simp [combinations2] at h
  | cons x xs ih =>
    simp only [combinations2, List.mem_append, List.mem_map] at h
    rcases h with ⟨y, hy, heq⟩ | h
    · cases heq
      obtain ⟨v, w, rfl⟩ := List.append_of_mem hy
      exact ⟨[], v, w, by simp⟩
    · obtain ⟨u, v, w, rfl⟩ := ih h
      exact ⟨x :: u, v, w, by simp⟩

/-- Appending one element and erasing both components of a `combinations2`
pair shrinks a list by exactly one. -/
lemma erase_erase_length {α : Type} [DecidableEq α] {a b x : α} {l : List α}
    (h : (a, b) ∈ combinations2 l) :
    (((l ++ [x]).erase a).erase b).length + 1 = l.length := by
  obtain ⟨u, v, w, rfl⟩ := combinations2_split h
  have hmem_a : a ∈ (u ++ a :: (v ++ b :: w)) ++ [x] := by simp
  have hb : b ∈ ((u ++ a :: (v ++ b :: w)) ++ [x]).erase a := by
    have hrw : (u ++ a :: (v ++ b :: w)) ++ [x]
        = (u ++ [a]) ++ (v ++ b :: (w ++ [x])) := by simp
    rw [hrw, List.erase_append_left _ (by simp : a ∈ u ++ [a])]
    simp
  have h1 := List.length_erase_of_mem hmem_a
  have h2 := List.length_erase_of_mem hb
  simp only [List.length_append, List.length_cons, List.length_nil] at h1 h2 ⊢
  omega

/-- The selection loop only ever returns a pair from the list being scanned
(or the initial best). -/
lemma selectPair_best_mem (sd : String → String → Score3) :
    ∀ (ps : List (Motif × Motif)) (mx : ℚ) (best : Option (Motif × Motif))
      (p : Motif × Motif),
      (selectPair sd ps mx best).2 = some p → p ∈ ps ∨ best = some p := by
  intro ps
  induction ps with
  | nil =>
    intro mx best p h
    simp only [selectPair] at h
    exact Or.inr h
  | cons q ps ih =>
    intro mx best p h
    simp only [selectPair] at h
    by_cases hc : mx ≤ simOf sd q
    · rw [if_pos hc] at h
      rcases ih _ _ _ h with hmem | hq
      · exact Or.inl (List.mem_cons_of_mem _ hmem)
      · cases Option.some.inj hq
        exact Or.inl (List.mem_cons_self _ _)
    · rw [if_neg hc] at h
      rcases ih _ _ _ h with hmem | hbest
      · exact Or.inl (List.mem_cons_of_mem _ hmem)
      · exact Or.inr hbest

/-- A selected merge pair comes from the enumerated combinations. -/
lemma selectMergePair_mem {motifs : List Motif} {sd : String → String → Score3}
    {p : Motif × Motif} (h : selectMergePair motifs sd = some p) :
    p ∈ combinations2 motifs := by
  rcases selectPair_best_mem sd (combinations2 motifs) 0 none p h with hm | hn
  · exact hm
  · simp at hn

/-- Each successful consensus step shrinks the working list by exactly one
motif (one appended, two removed). -/
lemma consensusStep_length {env : ConsensusEnv} {motifs motifs2 : List Motif}
    {sd sd2 : String → String → Score3}
    (h : consensusStep env motifs sd = some (motifs2, sd2)) :
    motifs2.length + 1 = motifs.length := by
  unfold consensusStep at h
  cases hm : selectMergePair motifs sd with
  | none => rw [hm] at h; cases h
  | some p =>
    rw [hm] at h
    obtain ⟨m1, m2⟩ := p
    simp only [Option.some.injEq, Prod.mk.injEq] at h
    obtain ⟨h1, _⟩ := h
    subst h1
    exact erase_erase_length (selectMergePair_mem hm)

/-- Embedding of `generate_consensus_motif` (lines 472-514) instrumented with a counter of
how many merges (recursive levels past the base case) were performed.  The
base case `len(motifs) == 1` returns `motifs[0]`; `none` models the
`UnboundLocalError` raised when no merge pair can be selected (in particular
on an empty working list). -/
def consensusRun (env : ConsensusEnv) (motifs : List Motif)
    (sd : String → String → Score3) : Option (Motif × Nat) :=
  if motifs.length = 1 then
    motifs.head?.map (fun m => (m, 0))
  else
    match h : consensusStep env motifs sd with
    | none => none
    | some (motifs2, sd2) =>
      (consensusRun env motifs2 sd2).map (fun r => (r.1, r.2 + 1))
termination_by motifs.length
decreasing_by
  have := consensusStep_length h
  omega

/-- Embedding of `generate_consensus_motif` itself: the motif resulting from
the recursion. -/
def generate_consensus_motif (env : ConsensusEnv) (motifs : List Motif)
    (sd : String → String → Score3) : Option Motif :=
  (consensusRun env motifs sd).map Prod.fst

/-- Embedding of `generate_consensus_motifs` (lines 443-468): for each
cluster, materialize
the working list by filtering the full motif list with `m.id in value`
(membership of the RAW id in the cluster's label list) and run the recursive
consensus builder on it. -/
def generate_consensus_motifs (env : ConsensusEnv) (motif_list : List Motif)
    (clusters : List (String × List String))
    (sd : String → String → Score3) : List (String × Option Motif) :=
  clusters.map (fun c =>
    (c.1, generate_consensus_motif env
      (motif_list.filter (fun m => c.2.contains m.id)) sd))

/-! ## Helper lemmas about the selection loop and the recursion -/

/-- Default pair used for positional indexing into the combination list. -/
def dummyPair : Motif × Motif := (⟨"", []⟩, ⟨"", []⟩)

/-- If every remaining candidate scores strictly below the running maximum,
the selection loop changes nothing. -/
lemma selectPair_skip_all (sd : String → String → Score3) :
    ∀ (ps : List (Motif × Motif)) (mx : ℚ) (best : Option (Motif × Motif)),
      (∀ p ∈ ps, simOf sd p < mx) → selectPair sd ps mx best = (mx, best) := by
  intro ps
  induction ps with
  | nil => intro mx best _; rfl
  | cons q ps ih =>
    intro mx best h
    have hq : ¬ mx ≤ simOf sd q := not_le.mpr (h q (List.mem_cons_self _ _))
    simp only [selectPair, if_neg hq]
    exact ih mx best (fun p hp => h p (List.mem_cons_of_mem _ hp))

/-- Main invariant of the `>=`-selection loop: as soon as some candidate
reaches the running maximum, the final best is the candidate at an index `k`
that scores at least every candidate (and at least the initial maximum), and
strictly above every candidate enumerated after it — i.e. the maximum, with
ties broken in favour of the last pair encountered. -/
lemma selectPair_found (sd : String → String → Score3) :
    ∀ (ps : List (Motif × Motif)) (mx : ℚ) (best : Option (Motif × Motif)),
      (∃ p ∈ ps, mx ≤ simOf sd p) →
      ∃ k, k < ps.length ∧
        (selectPair sd ps mx best).2 = some (ps.getD k dummyPair) ∧
        mx ≤ simOf sd (ps.getD k dummyPair) ∧
        (∀ q ∈ ps, simOf sd q ≤ simOf sd (ps.getD k dummyPair)) ∧
        (∀ j, k < j → j < ps.length →
          simOf sd (ps.getD j dummyPair) < simOf sd (ps.getD k dummyPair)) := by
  intro ps
  induction ps with
  | nil =>
    rintro mx best ⟨p, hp, -⟩
    simp at hp
  | cons q ps ih =>
    intro mx best hex
    by_cases hc : mx ≤ simOf sd q
    · by_cases hex2 : ∃ r ∈ ps, simOf sd q ≤ simOf sd r
      · obtain ⟨k, hk, hres, hge, hall, hlater⟩ := ih (simOf sd q) (some q) hex2
        refine ⟨k + 1, by simpa using hk, ?_, ?_, ?_, ?_⟩
        · simpa only [selectPair, if_pos hc, List.getD_cons_succ] using hres
        · simpa only [List.getD_cons_succ] using le_trans hc hge
        · intro r hr
          rcases List.mem_cons.mp hr with rfl | hr
          · simpa only [List.getD_cons_succ] using hge
          · simpa only [List.getD_cons_succ] using hall r hr
        · intro j hj hjlen
          cases j with
          | zero => omega
          | succ j2 =>
            simp only [List.getD_cons_succ]
            exact hlater j2 (by omega) (by simpa using hjlen)
      · push_neg at hex2
        refine ⟨0, by simp, ?_, by simpa using hc, ?_, ?_⟩
        · have hskip := selectPair_skip_all sd ps (simOf sd q) (some q) hex2
          simp only [selectPair, if_pos hc, hskip, List.getD_cons_zero]
        · intro r hr
          rcases List.mem_cons.mp hr with rfl | hr
          · simp
          · simpa only [List.getD_cons_zero] using (hex2 r hr).le
        · intro j hj hjlen
          cases j with
          | zero => omega
          | succ j2 =>
            simp only [List.getD_cons_succ, List.getD_cons_zero]
            have hjl : j2 < ps.length := by simpa using hjlen
            have hmem : ps.getD j2 dummyPair ∈ ps := by
              rw [List.getD_eq_getElem ps dummyPair hjl]
              exact List.getElem_mem hjl
            exact hex2 _ hmem
    · have hex2 : ∃ p ∈ ps, mx ≤ simOf sd p := by
        obtain ⟨p, hp, hge⟩ := hex
        rcases List.mem_cons.mp hp with rfl | hp
        · exact absurd hge hc
        · exact ⟨p, hp, hge⟩
      obtain ⟨k, hk, hres, hge, hall, hlater⟩ := ih mx best hex2
      refine ⟨k + 1, by simpa using hk, ?_, ?_, ?_, ?_⟩
      · simpa only [selectPair, if_neg hc, List.getD_cons_succ] using hres
      · simpa only [List.getD_cons_succ] using hge
      · intro r hr
        rcases List.mem_cons.mp hr with rfl | hr
        · simpa only [List.getD_cons_succ] using le_trans (not_le.mp hc).le hge
        · simpa only [List.getD_cons_succ] using hall r hr
      · intro j hj hjlen
        cases j with
        | zero => omega
        | succ j2 =>
          simp only [List.getD_cons_succ]
          exact hlater j2 (by omega) (by simpa using hjlen)

/-- A working list of at least two motifs enumerates at least one pair. -/
lemma combinations2_ne_nil {α : Type} {l : List α} (h : 2 ≤ l.length) :
    combinations2 l ≠ [] := by
  match l with
  | [] => simp at h
  | [a] => simp at h
  | a :: b :: t => simp [combinations2]

/-- Unfolding of the recursion at its base case `len(motifs) == 1`. -/
lemma consensusRun_base {env : ConsensusEnv} {motifs : List Motif}
    {sd : String → String → Score3} (hone : motifs.length = 1) :
    consensusRun env motifs sd = motifs.head?.map (fun m => (m, 0)) := by
  rw [consensusRun]
  rw [if_pos hone]

/-- Unfolding of the recursion at a successful merge step. -/
lemma consensusRun_step {env : ConsensusEnv} {motifs L : List Motif}
    {sd sd2 : String → String → Score3} (hone : motifs.length ≠ 1)
    (hstep : consensusStep env motifs sd = some (L, sd2)) :
    consensusRun env motifs sd
      = (consensusRun env L sd2).map (fun r => (r.1, r.2 + 1)) := by
  rw [consensusRun]
  rw [if_neg hone]
  split
  · rename_i heq
    rw [hstep] at heq
    cases heq
  · rename_i a b heq
    rw [hstep] at heq
    injection heq with h
    injection h with h1 h2
    rw [h1, h2]

/-- Totality of the recursion: when all similarity scores are non-negative
(which the source assumes: "score cannot be lower that 0"), a working list of
size `n ≥ 1` terminates with exactly `n - 1` merges. -/
lemma consensusRun_succeeds (env : ConsensusEnv)
    (hre : ∀ (l : List Motif) (x y : String), 0 ≤ ((env.rescore l) x y).sim) :
    ∀ (n : Nat) (motifs : List Motif) (sd : String → String → Score3),
      motifs.length = n → 1 ≤ n → (∀ x y, 0 ≤ (sd x y).sim) →
      ∃ m, consensusRun env motifs sd = some (m, n - 1) := by
  intro n
  induction n using Nat.strong_induction_on with
  | _ n ih =>
    intro motifs sd hlen h1 hsd
    by_cases hone : motifs.length = 1
    · obtain ⟨m, rfl⟩ := List.length_eq_one.mp hone
      refine ⟨m, ?_⟩
      rw [consensusRun_base hone]
      have hn1 : n = 1 := by omega
      subst hn1
      rfl
    · have h2 : 2 ≤ motifs.length := by omega
      have hne := combinations2_ne_nil h2
      obtain ⟨p, hp⟩ := List.exists_mem_of_ne_nil _ hne
      obtain ⟨k, hk, hres, -, -, -⟩ :=
        selectPair_found sd (combinations2 motifs) 0 none ⟨p, hp, hsd p.1.id p.2.id⟩
      obtain ⟨m1, m2, hq⟩ : ∃ m1 m2,
          (combinations2 motifs).getD k dummyPair = (m1, m2) := ⟨_, _, rfl⟩
      have hsel : selectMergePair motifs sd = some (m1, m2) := by
        rw [selectMergePair, hres, hq]
      have hstep : consensusStep env motifs sd
          = some (((motifs ++ [newAvgMotif env motifs sd m1 m2]).erase m1).erase m2,
            env.rescore
              (((motifs ++ [newAvgMotif env motifs sd m1 m2]).erase m1).erase m2)) := by
        unfold consensusStep
        rw [hsel]
      have hlen2 := consensusStep_length hstep
      obtain ⟨m, hm⟩ := ih (n - 1) (by omega)
        (((motifs ++ [newAvgMotif env motifs sd m1 m2]).erase m1).erase m2)
        (env.rescore (((motifs ++ [newAvgMotif env motifs sd m1 m2]).erase m1).erase m2))
        (by omega) (by omega) (fun x y => hre _ x y)
      refine ⟨m, ?_⟩
      rw [consensusRun_step hone hstep, hm]
      have harith : n - 1 - 1 + 1 = n - 1 := by omega
      simp [harith]

/-! ## Concrete fixtures used by counterexamples and witnesses -/

def motA : Motif := ⟨"A", []⟩
def motB : Motif := ⟨"B", []⟩
def motC : Motif := ⟨"C", []⟩

/-- A probe environment whose averaging primitive records, inside the new
motif's matrix, the `pos` and `orientation` arguments it was called with, so
theorems can observe which alignment parameters the builder actually used. -/
def envProbe : ConsensusEnv :=
  ⟨fun m1 _ p o => ⟨m1.id, [[(p : ℚ), (o : ℚ)]]⟩, fun _ _ _ => ⟨0, 0, 0⟩⟩

/-- Scores for the offset/orientation divergence: the winning pair (A,B) has
similarity 9 with recorded alignment (1, 1); the last enumerated pair (B,C)
has similarity 3 with alignment (7, -1). -/
def sdBug (x y : String) : Score3 :=
  if x = "A" ∧ y = "B" then ⟨9, 1, 1⟩
  else if x = "A" ∧ y = "C" then ⟨1, 5, 1⟩
  else if x = "B" ∧ y = "C" then ⟨3, 7, -1⟩
  else ⟨0, 0, 0⟩

/-- Scores with a tie between the distinct pairs (A,B) and (B,C). -/
def sdTie (x y : String) : Score3 :=
  if x = "A" ∧ y = "B" then ⟨5, 0, 1⟩
  else if x = "A" ∧ y = "C" then ⟨2, 0, 1⟩
  else if x = "B" ∧ y = "C" then ⟨5, 0, 1⟩
  else ⟨0, 0, 1⟩

/-- Constant non-negative scores for the termination witness. -/
def sdHalf (_ _ : String) : Score3 := ⟨1, 0, 1⟩

/-! ## Claims about the Consensus Builder -/

/-- C1 (code divergence exhibit): on the working list `[A, B, C]` with scores
`sdBug`, the selection picks the maximum-similarity pair (A, B), whose
recorded offset/orientation is (1, 1); yet the merge step calls the averaging
primitive with (7, -1), the alignment of the LAST enumerated pair (B, C),
because the Python loop variable `score` is stale after the loop.  The new
identifier "A_B" does follow the winning pair, as claimed. -/
theorem claim1_offset_divergence :
    (consensusStep envProbe [motA, motB, motC] sdBug).map Prod.fst
        = some [motC, ⟨"A_B", [[7, -1]]⟩]
      ∧ selectMergePair [motA, motB, motC] sdBug = some (motA, motB)
      ∧ (sdBug "A" "B").pos = 1 ∧ (sdBug "A" "B").orient = 1
      ∧ lastPairScore [motA, motB, motC] sdBug = ⟨3, 7, -1⟩ := by
  refine ⟨by decide, by decide, by decide, by decide, by decide⟩

/-- C2: for every working list of at least two motifs whose pairwise scores
are non-negative (the source's stated assumption "score cannot be lower that
0"), the selected merge pair is the candidate at an index `k` of the
enumerated combinations that scores at least every candidate, and strictly
above every candidate enumerated after it — so a candidate replaces the
running maximum exactly on `>=`, and of tied maxima the last one enumerated
wins. -/
theorem claim2_max_tiebreak (motifs : List Motif) (sd : String → String → Score3)
    (h2 : 2 ≤ motifs.length)
    (hnn : ∀ p ∈ combinations2 motifs, 0 ≤ simOf sd p) :
    ∃ k, k < (combinations2 motifs).length ∧
      selectMergePair motifs sd = some ((combinations2 motifs).getD k dummyPair) ∧
      (∀ q ∈ combinations2 motifs,
        simOf sd q ≤ simOf sd ((combinations2 motifs).getD k dummyPair)) ∧
      (∀ j, k < j → j < (combinations2 motifs).length →
        simOf sd ((combinations2 motifs).getD j dummyPair)
          < simOf sd ((combinations2 motifs).getD k dummyPair)) := by
  obtain ⟨p, hp⟩ := List.exists_mem_of_ne_nil _ (combinations2_ne_nil h2)
  obtain ⟨k, hk, hres, -, hall, hlater⟩ :=
    selectPair_found sd (combinations2 motifs) 0 none ⟨p, hp, hnn p hp⟩
  exact ⟨k, hk, hres, hall, hlater⟩

/-- Witness for C2, realizing the spec's tie-break scenario: the distinct
pairs (A,B) and (B,C) both score the maximum 5, and the later-enumerated
(B,C) is selected. -/
theorem claim2_witness :
    selectMergePair [motA, motB, motC] sdTie = some (motB, motC)
      ∧ ∃ k, k < (combinations2 [motA, motB, motC]).length ∧
          selectMergePair [motA, motB, motC] sdTie
            = some ((combinations2 [motA, motB, motC]).getD k dummyPair) ∧
          (∀ q ∈ combinations2 [motA, motB, motC],
            simOf sdTie q
              ≤ simOf sdTie ((combinations2 [motA, motB, motC]).getD k dummyPair)) ∧
          (∀ j, k < j → j < (combinations2 [motA, motB, motC]).length →
            simOf sdTie ((combinations2 [motA, motB, motC]).getD j dummyPair)
              < simOf sdTie ((combinations2 [motA, motB, motC]).getD k dummyPair)) :=
  ⟨by decide, claim2_max_tiebreak [motA, motB, motC] sdTie (by decide) (by decide)⟩

/-- C7: a cluster containing exactly one motif returns that motif itself,
identifier unchanged (`if len(motifs) == 1: return motifs[0]`). -/
theorem claim7_singleton (env : ConsensusEnv) (m : Motif)
    (sd : String → String → Score3) :
    generate_consensus_motif env [m] sd = some m := by
  simp [generate_consensus_motif, consensusRun]

/-- On the empty working list the selection loop never assigns a pair, so the
builder aborts with an error (modelled by `none`) instead of producing a
motif. -/
lemma gcm_nil (env : ConsensusEnv) (sd : String → String → Score3) :
    generate_consensus_motif env [] sd = none := by
  simp [generate_consensus_motif, consensusRun, consensusStep, selectMergePair,
    combinations2, selectPair]

/-- C9: invoked on an empty cluster, the Consensus Builder fails (the Python
code raises `UnboundLocalError` at the merge step because no pair was ever
selected — modelled by `none`) rather than returning a motif. -/
theorem claim9_empty_cluster_fails (env : ConsensusEnv)
    (sd : String → String → Score3) :
    generate_consensus_motif env [] sd = none :=
  gcm_nil env sd

/-- C8: for every cluster of size `k ≥ 1` with non-negative similarity scores,
every successful step shrinks the working list by exactly one motif (one
appended, two removed), and the recursion terminates with exactly `k - 1`
merges — hence a final working list of size 1, the base case. -/
theorem claim8_termination (env : ConsensusEnv) (motifs : List Motif)
    (sd : String → String → Score3) (h1 : 1 ≤ motifs.length)
    (hsd : ∀ x y, 0 ≤ (sd x y).sim)
    (hre : ∀ (l : List Motif) (x y : String), 0 ≤ ((env.rescore l) x y).sim) :
    (∀ (ms ms2 : List Motif) (sd0 sd2 : String → String → Score3),
        consensusStep env ms sd0 = some (ms2, sd2) → ms2.length + 1 = ms.length)
      ∧ ∃ m, consensusRun env motifs sd = some (m, motifs.length - 1) :=
  ⟨fun _ _ _ _ h => consensusStep_length h,
   consensusRun_succeeds env hre motifs.length motifs sd rfl h1 hsd⟩

/-- Witness for C8 on the concrete two-motif cluster `[A, B]`: exactly one
merge happens. -/
theorem claim8_witness :
    (1 ≤ ([motA, motB] : List Motif).length)
      ∧ ∃ m, consensusRun envProbe [motA, motB] sdHalf = some (m, 1) :=
  ⟨by decide,
   (claim8_termination envProbe [motA, motB] sdHalf (by decide)
      (fun x y => by norm_num [sdHalf])
      (fun l x y => by norm_num [envProbe])).2⟩

/-! ## Claim about tab-containing identifiers (Consensus Builder input) -/

/-- C10: cluster member lists hold tab-normalized labels (tab-free strings),
while `generate_consensus_motifs` tests membership with the RAW identifier
(`if m.id in value`).  Hence a motif whose identifier contains a tab is
excluded from every working list, and a cluster all of whose members'
identifiers contain tabs materializes an empty working list, so the
recursive merge receives `[]` and fails. -/
theorem claim10_tab_exclusion (env : ConsensusEnv) (motif_list : List Motif)
    (c : String) (value : List String) (sd : String → String → Score3)
    (hv : ∀ s ∈ value, '\t' ∉ s.data) :
    (∀ m ∈ motif_list, '\t' ∈ m.id.data →
        m ∉ motif_list.filter (fun m => value.contains m.id))
      ∧ ((∀ m ∈ motif_list, '\t' ∈ m.id.data) →
          motif_list.filter (fun m => value.contains m.id) = []
          ∧ generate_consensus_motifs env motif_list [(c, value)] sd
              = [(c, none)]) := by
  have hnotin : ∀ m : Motif, '\t' ∈ m.id.data → ¬ value.contains m.id = true := by
    intro m hm hc
    have hmem : m.id ∈ value := by simpa using hc
    exact hv m.id hmem hm
  constructor
  · intro m hm htab hfil
    exact hnotin m htab (List.mem_filter.mp hfil).2
  · intro hall
    have hnil : motif_list.filter (fun m => value.contains m.id) = [] :=
      List.filter_eq_nil_iff.mpr (fun m hm => hnotin m (hall m hm))
    refine ⟨hnil, ?_⟩
    simp only [generate_consensus_motifs, List.map_cons, List.map_nil]
    rw [hnil, gcm_nil]

def motTab : Motif := ⟨"a\tb", []⟩

/-- Witness for C10: the single motif has raw identifier `"a\tb"`, the
cluster's member list holds the normalized `"a b"`, and the materialized
working list is empty, so the cluster's consensus fails. -/
theorem claim10_witness :
    normalizeId "a\tb" = "a b"
      ∧ generate_consensus_motifs envProbe [motTab] [("Cluster_1", ["a b"])] sdHalf
          = [("Cluster_1", none)] :=
  ⟨by decide,
   ((claim10_tab_exclusion envProbe [motTab] "Cluster_1" ["a b"] sdHalf
      (by decide)).2 (by decide)).2⟩

/-! ## Claims about the cluster grouping step -/

/-- Evaluating the `get_cluster` fold at a key yields the initial group
followed by the names whose label maps to that key, in list order. -/
lemma foldl_clusterStep (k : String) :
    ∀ (ps : List (Nat × String)) (acc : String → List String),
      ps.foldl clusterStep acc k
        = acc k ++ (ps.filter (fun p => clusterKey p.1 == k)).map Prod.snd := by
  intro ps
  induction ps with
  | nil => intro acc; simp
  | cons p ps ih =>
    intro acc
    simp only [List.foldl_cons]
    rw [ih]
    by_cases h : clusterKey p.1 = k
    · simp [clusterStep, List.filter_cons, h]
    · simp [clusterStep, List.filter_cons, h]

/-- A name in the label-name zip exists for every name, when the two lists
have equal length. -/
lemma exists_label_of_mem {labels : List Nat} {names : List String}
    (hlen : labels.length = names.length) {n : String} (hn : n ∈ names) :
    ∃ lab, (lab, n) ∈ labels.zip names := by
  induction labels generalizing names with
  | nil =>
    cases names with
    | nil => simp at hn
    | cons b bs => simp at hlen
  | cons a as ih =>
    cases names with
    | nil => simp at hn
    | cons b bs =>
      rcases List.mem_cons.mp hn with rfl | hn
      · exact ⟨a, by simp⟩
      · obtain ⟨lab, hl⟩ := ih (by simpa using hlen) hn
        exact ⟨lab, by simp [hl]⟩

/-- With duplicate-free names, each name is zipped with a unique label. -/
lemma zip_snd_unique {labels : List Nat} {names : List String}
    (hnd : names.Nodup) {l1 l2 : Nat} {n : String}
    (h1 : (l1, n) ∈ labels.zip names) (h2 : (l2, n) ∈ labels.zip names) :
    l1 = l2 := by
  induction labels generalizing names with
  | nil => simp at h1
  | cons a as ih =>
    cases names with
    | nil => simp at h1
    | cons b bs =>
      simp only [List.zip_cons_cons, List.mem_cons] at h1 h2
      obtain ⟨hb, hbs⟩ := List.nodup_cons.mp hnd
      rcases h1 with h1 | h1 <;> rcases h2 with h2 | h2
      · injection h1 with e1 e2
        injection h2 with f1 f2
        rw [e1, f1]
      · exfalso
        injection h1 with e1 e2
        rw [e2] at h2
        exact hb (List.of_mem_zip h2).2
      · exfalso
        injection h2 with f1 f2
        rw [f2] at h1
        exact hb (List.of_mem_zip h1).2
      · exact ih hbs h1 h2

/-- C6: grouping the cut's label array with the matrix's row labels keys each
cluster as `"Cluster_<n>"` from its integer label, lists the members of each
cluster in row-label order (the order-preserving filter of the zip), and —
when identifiers are unique, per the data model — places every input
identifier in exactly one cluster: the one keyed by its own label. -/
theorem claim6_cluster_assignment (labels : List Nat) (names : List String)
    (hlen : labels.length = names.length) (hnd : names.Nodup) :
    (∀ k, get_cluster (labels.zip names) k
        = ((labels.zip names).filter (fun p => clusterKey p.1 == k)).map Prod.snd)
      ∧ (∀ n ∈ names, ∃ lab, (lab, n) ∈ labels.zip names ∧
          ∀ k, n ∈ get_cluster (labels.zip names) k ↔ k = clusterKey lab) := by
  have hch : ∀ k, get_cluster (labels.zip names) k
      = ((labels.zip names).filter (fun p => clusterKey p.1 == k)).map Prod.snd := by
    intro k
    rw [get_cluster, foldl_clusterStep]
    simp
  refine ⟨hch, ?_⟩
  intro n hn
  obtain ⟨lab, hl⟩ := exists_label_of_mem hlen hn
  refine ⟨lab, hl, ?_⟩
  intro k
  rw [hch]
  constructor
  · intro hk
    obtain ⟨p, hp, hpn⟩ := List.mem_map.mp hk
    obtain ⟨hpz, hpk⟩ := List.mem_filter.mp hp
    have hp1 : p.1 = lab := by
      refine zip_snd_unique hnd ?_ hl
      have : p = (p.1, n) := by
        rw [← hpn]
      rwa [this] at hpz
    rw [← hp1]
    exact (beq_iff_eq.mp hpk).symm
  · rintro rfl
    exact List.mem_map.mpr ⟨(lab, n), List.mem_filter.mpr ⟨hl, by simp⟩, rfl⟩

/-- Witness for C6 on labels `[2, 1, 2]` and names `["x", "y", "z"]`:
`Cluster_2` lists `x` then `z` in row order. -/
theorem claim6_witness :
    get_cluster ([2, 1, 2].zip ["x", "y", "z"]) "Cluster_2" = ["x", "z"] :=
  ((claim6_cluster_assignment [2, 1, 2] ["x", "y", "z"] rfl
      (by decide)).1 "Cluster_2").trans (by decide)

/-! ## Claims about the Dissimilarity Classifier -/

/-- C5: the classifier returns exactly the labels of the columns among
`0 .. column_count - 2` all of whose entries (diagonal included) strictly
exceed the threshold; and — with duplicate-free labels, per the data model —
the last column's label never appears in the result, since the loop bound
`range(columns - 1)` never evaluates the last column. -/
theorem claim5_dissimilar (matrix : DistMatrix) (t : ℚ) :
    (∀ l, l ∈ get_dissimilar_motifs matrix t ↔
        ∃ col, col < matrix.cols.length - 1 ∧ matrix.cols.getD col "" = l ∧
          ∀ r, r < matrix.nrows → t < matrix.entry r col)
      ∧ (matrix.cols.Nodup → 1 ≤ matrix.cols.length →
          matrix.cols.getD (matrix.cols.length - 1) ""
            ∉ get_dissimilar_motifs matrix t) := by
  have hiff : ∀ l, l ∈ get_dissimilar_motifs matrix t ↔
      ∃ col, col < matrix.cols.length - 1 ∧ matrix.cols.getD col "" = l ∧
        ∀ r, r < matrix.nrows → t < matrix.entry r col := by
    intro l
    simp only [get_dissimilar_motifs, List.mem_map, List.mem_filter, List.mem_range,
      List.all_eq_true, decide_eq_true_eq]
    constructor
    · rintro ⟨col, ⟨hcol, hall⟩, rfl⟩
      exact ⟨col, hcol, rfl, fun r hr => hall r hr⟩
    · rintro ⟨col, hcol, rfl, hall⟩
      exact ⟨col, ⟨hcol, fun r hr => hall r hr⟩, rfl⟩
  refine ⟨hiff, ?_⟩
  intro hnd hlen hmem
  obtain ⟨col, hcol, heq, -⟩ := (hiff _).mp hmem
  have hc1 : col < matrix.cols.length := by omega
  have hc2 : matrix.cols.length - 1 < matrix.cols.length := by omega
  rw [List.getD_eq_getElem _ _ hc1, List.getD_eq_getElem _ _ hc2] at heq
  have := (List.Nodup.getElem_inj_iff hnd).mp heq
  omega

/-- The 3x3 scenario of the spec: every entry of every column is 0.9, with
threshold 0.5; column label "X" is not the last column. -/
def dmEx : DistMatrix := ⟨["X", "Y", "Z"], 3, fun _ _ => 9/10⟩

/-- Witness for C5: "X" is reported dissimilar, while the last column's label
"Z" is never reported even though its entries also all exceed the
threshold. -/
theorem claim5_witness :
    "X" ∈ get_dissimilar_motifs dmEx (1/2)
      ∧ "Z" ∉ get_dissimilar_motifs dmEx (1/2) :=
  ⟨((claim5_dissimilar dmEx (1/2)).1 "X").mpr
      ⟨0, by decide, rfl, fun r hr => by norm_num [dmEx]⟩,
   (claim5_dissimilar dmEx (1/2)).2 (by decide) (by decide)⟩

/-! ## Claims about the Score Matrix Builder -/

/-- Characterization of the writes performed by the symmetrization loop. -/
lemma mem_writesList {sd : ScoreMap} {w : String × String × ℚ} :
    w ∈ writesList sd ↔ ∃ m1 ∈ sd.keys1, ∃ m2 ∈ sd.keys2,
      w = (normalizeId m1, normalizeId m2, pairScore sd m1 m2) ∨
      w = (normalizeId m2, normalizeId m1, pairScore sd m1 m2) := by
  simp [writesList, List.mem_flatMap]

/-- The `np.mean` of two scores does not depend on their order, so the value
written for `(m1, m2)` equals the value written for `(m2, m1)`. -/
lemma pairScore_comm (sd : ScoreMap) (m1 m2 : String) :
    pairScore sd m1 m2 = pairScore sd m2 m1 := by
  unfold pairScore
  rw [add_comm]

/-- Over `ℚ` the `.replace(-0, 0)` normalization is the identity. -/
lemma negZeroFix_id (q : ℚ) : negZeroFix q = q := by
  unfold negZeroFix
  split <;> simp_all

/-- Core lemma for the Score Matrix Builder: when the two key sets coincide
and normalized labels are injective on the keys (identifiers are unique after
normalization, per the data model), the final cell at `(label i, label j)` is
exactly the rounded symmetrized score of the pair `(i, j)` — all writes to
that cell carry this same value, so the last write also does. -/
lemma matrixEntry_eq (sd : ScoreMap)
    (hco : ∀ x, x ∈ sd.keys1 ↔ x ∈ sd.keys2)
    (hinj : ∀ a ∈ sd.keys1, ∀ b ∈ sd.keys1, normalizeId a = normalizeId b → a = b)
    {i j : String} (hi : i ∈ sd.keys1) (hj : j ∈ sd.keys1) :
    matrixEntry sd (normalizeId i) (normalizeId j) = some (pairScore sd i j) := by
  have hw : (normalizeId i, normalizeId j, pairScore sd i j) ∈ writesList sd :=
    mem_writesList.mpr ⟨i, hi, j, (hco j).mp hj, Or.inl rfl⟩
  have hsome : ((writesList sd).reverse.find? (fun w =>
      w.1 == normalizeId i && w.2.1 == normalizeId j)).isSome := by
    rw [List.find?_isSome]
    exact ⟨_, List.mem_reverse.mpr hw, by simp⟩
  obtain ⟨w, hfind⟩ := Option.isSome_iff_exists.mp hsome
  have hwpred := List.find?_some hfind
  have hwmem : w ∈ writesList sd :=
    List.mem_reverse.mp (List.mem_of_find?_eq_some hfind)
  obtain ⟨m1, hm1, m2, hm2, hcase⟩ := mem_writesList.mp hwmem
  have hm2k : m2 ∈ sd.keys1 := (hco m2).mpr hm2
  have hval : w.2.2 = pairScore sd i j := by
    rcases hcase with rfl | rfl <;>
      simp only [Bool.and_eq_true, beq_iff_eq] at hwpred
    · obtain ⟨e1, e2⟩ := hwpred
      rw [hinj m1 hm1 i hi e1, hinj m2 hm2k j hj e2]
    · obtain ⟨e1, e2⟩ := hwpred
      rw [hinj m2 hm2k i hi e1, hinj m1 hm1 j hj e2, pairScore_comm]
  rw [matrixEntry, hfind]
  simp [hval, negZeroFix_id]

/-- C3: for every ScoreMap whose key sets coincide (with labels injective on
the keys, per the data model's uniqueness invariant), every matrix entry —
including the diagonal — equals `round(1 - mean(sim(i,j), sim(j,i)), 3)`; the
`-0`-to-`0` normalization is the identity over `ℚ`; and the diagonal is
computed by the same formula from the self-similarity, not forced to 0. -/
theorem claim3_entry_formula (sd : ScoreMap)
    (hco : ∀ x, x ∈ sd.keys1 ↔ x ∈ sd.keys2)
    (hinj : ∀ a ∈ sd.keys1, ∀ b ∈ sd.keys1, normalizeId a = normalizeId b → a = b) :
    (∀ i ∈ sd.keys1, ∀ j ∈ sd.keys1,
        matrixEntry sd (normalizeId i) (normalizeId j)
          = some (round3 (1 - ((sd.score i j).sim + (sd.score j i).sim) / 2)))
      ∧ negZeroFix (-0) = 0
      ∧ (∀ i ∈ sd.keys1,
          matrixEntry sd (normalizeId i) (normalizeId i)
            = some (round3 (1 - ((sd.score i i).sim + (sd.score i i).sim) / 2))) :=
  ⟨fun i hi j hj => matrixEntry_eq sd hco hinj hi hj,
   by simp [negZeroFix],
   fun i hi => matrixEntry_eq sd hco hinj hi hi⟩

/-- C4: under the same coincidence hypotheses, the produced matrix is exactly
symmetric, even when the two directional similarity scores differ. -/
theorem claim4_symmetry (sd : ScoreMap)
    (hco : ∀ x, x ∈ sd.keys1 ↔ x ∈ sd.keys2)
    (hinj : ∀ a ∈ sd.keys1, ∀ b ∈ sd.keys1, normalizeId a = normalizeId b → a = b) :
    ∀ i ∈ sd.keys1, ∀ j ∈ sd.keys1,
      matrixEntry sd (normalizeId i) (normalizeId j)
        = matrixEntry sd (normalizeId j) (normalizeId i) := by
  intro i hi j hj
  rw [matrixEntry_eq sd hco hinj hi hj, matrixEntry_eq sd hco hinj hj hi,
    pairScore_comm]

/-- A concrete ScoreMap with asymmetric directional scores
(`sim(A,B) = 4/5` but `sim(B,A) = 3/5`) and a nonzero self-distance
(`sim(A,A) = 4/5`). -/
def smEx : ScoreMap :=
  ⟨["A", "B"], ["A", "B"], fun x y =>
    if x = "A" ∧ y = "A" then ⟨4/5, 0, 1⟩
    else if x = "A" ∧ y = "B" then ⟨4/5, 0, 1⟩
    else if x = "B" ∧ y = "A" then ⟨3/5, 0, 1⟩
    else ⟨1, 0, 1⟩⟩

lemma smEx_hco : ∀ x, x ∈ smEx.keys1 ↔ x ∈ smEx.keys2 := fun _ => Iff.rfl

lemma smEx_hinj : ∀ a ∈ smEx.keys1, ∀ b ∈ smEx.keys1,
    normalizeId a = normalizeId b → a = b := by
  intro a ha b hb h
  simp only [smEx, List.mem_cons, List.not_mem_nil, or_false] at ha hb
  rcases ha with rfl | rfl <;> rcases hb with rfl | rfl
  · rfl
  · exact absurd h (by decide)
  · exact absurd h (by decide)
  · rfl

/-- Witness for C3: the (A,B) entry follows the rounding formula, and the
diagonal (A,A) entry is `round3(1 - 4/5) = 1/5`, which is not 0. -/
theorem claim3_witness :
    matrixEntry smEx (normalizeId "A") (normalizeId "B")
        = some (round3 (1 - ((smEx.score "A" "B").sim + (smEx.score "B" "A").sim) / 2))
      ∧ matrixEntry smEx (normalizeId "A") (normalizeId "A")
          = some (round3 (1 - ((smEx.score "A" "A").sim + (smEx.score "A" "A").sim) / 2))
      ∧ matrixEntry smEx (normalizeId "A") (normalizeId "A") ≠ some 0 := by
  have h := claim3_entry_formula smEx smEx_hco smEx_hinj
  refine ⟨h.1 "A" (by decide) "B" (by decide), h.2.2 "A" (by decide), ?_⟩
  rw [h.2.2 "A" (by decide)]
  have hsim : (smEx.score "A" "A").sim = 4/5 := rfl
  rw [hsim]
  intro hcontra
  have := Option.some.inj hcontra
  norm_num [round3] at this

/-- Witness for C4: the (A,B) and (B,A) entries are equal even though the
directional scores 4/5 and 3/5 differ. -/
theorem claim4_witness :
    matrixEntry smEx (normalizeId "A") (normalizeId "B")
        = matrixEntry smEx (normalizeId "B") (normalizeId "A")
      ∧ (smEx.score "A" "B").sim ≠ (smEx.score "B" "A").sim :=
  ⟨claim4_symmetry smEx smEx_hco smEx_hinj "A" (by decide) "B" (by decide),
   by
    have e1 : (smEx.score "A" "B").sim = 4/5 := rfl
    have e2 : (smEx.score "B" "A").sim = 3/5 := rfl
    rw [e1, e2]
    norm_num⟩
